import Mathlib

/-!
Verification development for the mood-tracker application (`src/app.py`).

The program is a single-file pandas/Streamlit application.  We shallowly
embed its record store, filters and aggregations:

* the backing CSV file (`mood_log.csv`) is modelled at the level of cells:
  a `File` is a header row plus data rows, each row a list of cell strings.
  CSV quoting/escaping performed by `pandas.to_csv` / `read_csv` is assumed
  to be a correct inverse pair and is abstracted away;
* `pandas` NA handling is modelled: a cell whose text is one of the default
  NA sentinels (notably the empty string) is read back as a missing value
  (`Option.none`), exactly as `read_csv` turns such cells into `NaN`;
* timestamps are modelled at second granularity, matching the storage
  format `"%Y-%m-%d %H:%M:%S"` (`DATE_FORMAT` in `app.py`); parsing is
  modelled for files in the fixed-width shape the application itself
  writes;
* the tag filter (`Series.str.contains(tag_filter, case=False, na=False)`)
  is regex search (`regex=True` is the pandas default).  We model the
  fragment of Python regular expressions generated by patterns made of
  literal characters and the `.` wildcard; patterns using other
  metacharacters are outside the model (at runtime they either change the
  semantics further or raise `re.error`);
* case-insensitivity (`case=False`, Python `str.lower()`) is modelled for
  ASCII via `Char.toLower`.
-/

/-! ## Decimal digits: `str(int)` and zero-padded `strftime` fields -/

/-- The character for a single decimal digit `d < 10`. -/
def digitChar (d : Nat) : Char := Char.ofNat (48 + d)

/-- Whether a character is an ASCII decimal digit. -/
def isDigitCh (c : Char) : Bool := 48 ≤ c.toNat && c.toNat ≤ 57

/-- Numeric value of an ASCII digit character. -/
def digitVal (c : Char) : Nat := c.toNat - 48

/-- Digits of `n`, most significant first, by repeated division; `fuel`
bounds the recursion (any `fuel ≥ n` gives the true digits). -/
def renderNatAux : Nat → Nat → List Char
  | 0, _ => []
  | fuel + 1, n => if n = 0 then [] else renderNatAux fuel (n / 10) ++ [digitChar (n % 10)]

/-- Decimal rendering of a natural number, as Python `str(n)` produces. -/
def renderNat (n : Nat) : List Char :=
  if n = 0 then ['0'] else renderNatAux n n

/-- Exactly `w` decimal digits of `n % 10^w`, most significant first: the
zero-padded fixed-width fields produced by `strftime` (`%Y`, `%m`, ...);
for `n < 10^w` this is the zero-padded decimal rendering of `n`. -/
def padNumM : Nat → Nat → List Char
  | 0, _ => []
  | w + 1, n => digitChar (n / 10 ^ w % 10) :: padNumM w n

/-- Accumulating decimal value of a digit string. -/
def natValAux (a : Nat) (cs : List Char) : Nat :=
  cs.foldl (fun x c => x * 10 + digitVal c) a

/-- Parse a nonempty all-digit string as a natural number (the successful
case of pandas reading an integer column cell). -/
def parseNatL (cs : List Char) : Option Nat :=
  if cs.isEmpty then none
  else if cs.all isDigitCh then some (natValAux 0 cs) else none

/-- Consume exactly `w` digit characters from the front, accumulating
their value onto `acc`; fails on a non-digit or end of input. -/
def takeNumAux : Nat → Nat → List Char → Option (Nat × List Char)
  | 0, acc, cs => some (acc, cs)
  | w + 1, acc, cs =>
    match cs with
    | [] => none
    | c :: t => if isDigitCh c then takeNumAux w (acc * 10 + digitVal c) t else none

/-- Consume one expected literal character. -/
def expectCh (c : Char) : List Char → Option (List Char)
  | [] => none
  | x :: t => if x = c then some t else none

theorem isDigitCh_digitChar {d : Nat} (h : d < 10) : isDigitCh (digitChar d) = true := by
  interval_cases d <;> decide

theorem digitVal_digitChar {d : Nat} (h : d < 10) : digitVal (digitChar d) = d := by
  interval_cases d <;> decide

theorem natValAux_append (a : Nat) (xs : List Char) (c : Char) :
    natValAux a (xs ++ [c]) = natValAux a xs * 10 + digitVal c := by
  simp [natValAux, List.foldl_append]

theorem renderNatAux_all_digits : ∀ fuel n, (renderNatAux fuel n).all isDigitCh = true := by
  intro fuel
  induction fuel with
  | zero => intro n; simp [renderNatAux]
  | succ f ih =>
    intro n
    by_cases h : n = 0
    · simp [renderNatAux, h]
    · simp only [renderNatAux, if_neg h, List.all_append]
      rw [ih]
      simp [isDigitCh_digitChar (Nat.mod_lt n (by norm_num))]

theorem natValAux_renderNatAux : ∀ fuel n a, n ≤ fuel →
    natValAux a (renderNatAux fuel n) = a * 10 ^ (renderNatAux fuel n).length + n := by
  intro fuel
  induction fuel with
  | zero =>
    intro n a h
    interval_cases n
    simp [renderNatAux, natValAux]
  | succ f ih =>
    intro n a h
    by_cases h0 : n = 0
    · simp [renderNatAux, h0, natValAux]
    · have hdiv : n / 10 ≤ f := by
        have : n / 10 < n := Nat.div_lt_self (Nat.pos_of_ne_zero h0) (by norm_num)
        omega
      simp only [renderNatAux, if_neg h0]
      rw [natValAux_append, ih (n / 10) a hdiv]
      rw [digitVal_digitChar (Nat.mod_lt n (by norm_num))]
      simp only [List.length_append, List.length_cons, List.length_nil]
      rw [pow_succ, ← mul_assoc]
      generalize a * 10 ^ (renderNatAux f (n / 10)).length = q
      omega

theorem renderNatAux_ne_nil {fuel n : Nat} (h0 : 0 < n) (h : n ≤ fuel) :
    renderNatAux fuel n ≠ [] := by
  cases fuel with
  | zero => omega
  | succ f =>
    simp only [renderNatAux, if_neg (Nat.pos_iff_ne_zero.mp h0)]
    simp

/-- `str(n)` parses back to `n`: round trip for the mood column. -/
theorem parseNatL_renderNat (n : Nat) : parseNatL (renderNat n) = some n := by
  by_cases h : n = 0
  · simp [renderNat, h, parseNatL, natValAux]
    decide
  · have hpos : 0 < n := Nat.pos_of_ne_zero h
    have hne := renderNatAux_ne_nil hpos (le_refl n)
    simp only [renderNat, if_neg h, parseNatL]
    rw [if_neg (by simpa using hne)]
    rw [if_pos (renderNatAux_all_digits n n)]
    rw [natValAux_renderNatAux n n 0 (le_refl n)]
    simp

theorem takeNumAux_padNumM : ∀ w n acc rest,
    takeNumAux w acc (padNumM w n ++ rest) = some (acc * 10 ^ w + n % 10 ^ w, rest) := by
  intro w
  induction w with
  | zero => intro n acc rest; simp [padNumM, takeNumAux, Nat.mod_one]
  | succ w ih =>
    intro n acc rest
    have hd : n / 10 ^ w % 10 < 10 := Nat.mod_lt _ (by norm_num)
    simp only [padNumM, List.cons_append, takeNumAux]
    rw [if_pos (isDigitCh_digitChar hd), digitVal_digitChar hd]
    rw [ih n (acc * 10 + n / 10 ^ w % 10) rest]
    simp only [Option.some.injEq, Prod.mk.injEq]
    refine ⟨?_, trivial⟩
    rw [pow_succ, Nat.mod_mul]
    ring

theorem takeNumAux_bound : ∀ w acc cs v r,
    takeNumAux w acc cs = some (v, r) → v < (acc + 1) * 10 ^ w := by
  intro w
  induction w with
  | zero =>
    intro acc cs v r h
    simp [takeNumAux] at h
    omega
  | succ w ih =>
    intro acc cs v r h
    match cs with
    | [] => simp [takeNumAux] at h
    | c :: t =>
      simp only [takeNumAux] at h
      by_cases hc : isDigitCh c
      · rw [if_pos hc] at h
        have := ih (acc * 10 + digitVal c) t v r h
        have hdv : digitVal c ≤ 9 := by
          simp [isDigitCh] at hc
          simp [digitVal]
          omega
        have : v < (acc * 10 + digitVal c + 1) * 10 ^ w := this
        calc v < (acc * 10 + digitVal c + 1) * 10 ^ w := this
          _ ≤ ((acc + 1) * 10) * 10 ^ w := by nlinarith
          _ = (acc + 1) * 10 ^ (w + 1) := by ring
      · rw [if_neg hc] at h
        exact absurd h (by simp)

/-! ## Timestamps

`app.py` stores timestamps as strings in `DATE_FORMAT = "%Y-%m-%d %H:%M:%S"`
(line 12): `add_entry` formats `datetime.now()` with it (line 39), and
`load_data` re-reads the column as date-times (line 23).  We model a
date-time at that (second) granularity. -/

/-- A date-time at second granularity, the resolution of `DATE_FORMAT`. -/
structure DateTime where
  year : Nat
  month : Nat
  day : Nat
  hour : Nat
  minute : Nat
  second : Nat
deriving DecidableEq, Repr

/-- Field bounds under which the fixed-width `strftime` rendering is
faithful and invertible.  Python's `datetime` guarantees far tighter
bounds (`1 ≤ month ≤ 12`, `year ≤ 9999`, ...); these are the bounds the
digit widths of `DATE_FORMAT` themselves impose. -/
def DigitBounded (t : DateTime) : Prop :=
  t.year < 10000 ∧ t.month < 100 ∧ t.day < 100 ∧
  t.hour < 100 ∧ t.minute < 100 ∧ t.second < 100

instance (t : DateTime) : Decidable (DigitBounded t) := by
  unfold DigitBounded; infer_instance

/-- `strftime("%Y-%m-%d %H:%M:%S")`: zero-padded fixed-width fields. -/
def formatTimestampL (t : DateTime) : List Char :=
  padNumM 4 t.year ++ '-' :: padNumM 2 t.month ++ '-' :: padNumM 2 t.day ++
    ' ' :: padNumM 2 t.hour ++ ':' :: padNumM 2 t.minute ++ ':' :: padNumM 2 t.second

/-- String form of `formatTimestampL`. -/
def formatTimestamp (t : DateTime) : String := String.mk (formatTimestampL t)

/-- Parse a timestamp cell in the fixed-width shape `YYYY-MM-DD HH:MM:SS`
that the application writes (the successful case of
`read_csv(..., parse_dates=["timestamp"])` on an application-written
file). -/
def parseTimestampL (cs : List Char) : Option DateTime := do
  let (y, r1) ← takeNumAux 4 0 cs
  let r2 ← expectCh '-' r1
  let (mo, r3) ← takeNumAux 2 0 r2
  let r4 ← expectCh '-' r3
  let (d, r5) ← takeNumAux 2 0 r4
  let r6 ← expectCh ' ' r5
  let (h, r7) ← takeNumAux 2 0 r6
  let r8 ← expectCh ':' r7
  let (mi, r9) ← takeNumAux 2 0 r8
  let r10 ← expectCh ':' r9
  let (s, r11) ← takeNumAux 2 0 r10
  if r11.isEmpty then some ⟨y, mo, d, h, mi, s⟩ else none

/-- String form of `parseTimestampL`. -/
def parseTimestamp (s : String) : Option DateTime := parseTimestampL s.data

theorem expectCh_cons (c : Char) (t : List Char) : expectCh c (c :: t) = some t := by
  simp [expectCh]

/-- Formatting then parsing a digit-bounded date-time recovers it. -/
theorem parseTimestamp_formatTimestamp (t : DateTime) (h : DigitBounded t) :
    parseTimestamp (formatTimestamp t) = some t := by
  obtain ⟨hy, hmo, hd, hh, hmi, hs⟩ := h
  have fmt : (formatTimestamp t).data = formatTimestampL t := rfl
  simp only [parseTimestamp, fmt, formatTimestampL]
  rw [show padNumM 4 t.year ++ '-' :: padNumM 2 t.month ++ '-' :: padNumM 2 t.day ++
      ' ' :: padNumM 2 t.hour ++ ':' :: padNumM 2 t.minute ++ ':' :: padNumM 2 t.second
      = padNumM 4 t.year ++ ('-' :: padNumM 2 t.month ++ '-' :: padNumM 2 t.day ++
      ' ' :: padNumM 2 t.hour ++ ':' :: padNumM 2 t.minute ++ ':' :: padNumM 2 t.second)
      from rfl]
  simp only [parseTimestampL, takeNumAux_padNumM, Option.bind_eq_bind, Option.some_bind,
    List.cons_append, expectCh_cons, List.append_assoc]
  rw [show padNumM 2 t.second = padNumM 2 t.second ++ [] by simp]
  rw [takeNumAux_padNumM 2 t.second 0]
  simp only [Option.some_bind, List.isEmpty_nil, if_true]
  simp only [Nat.zero_mul, Nat.zero_add]
  rw [show (10:Nat) ^ 4 = 10000 from by norm_num, show (10:Nat) ^ 2 = 100 from by norm_num]
  rw [Nat.mod_eq_of_lt hy, Nat.mod_eq_of_lt hmo, Nat.mod_eq_of_lt hd,
    Nat.mod_eq_of_lt hh, Nat.mod_eq_of_lt hmi, Nat.mod_eq_of_lt hs]

/-- Values produced by a successful fixed-width timestamp parse satisfy the
digit-width bounds. -/
theorem parseTimestampL_bounded (cs : List Char) (t : DateTime)
    (h : parseTimestampL cs = some t) : DigitBounded t := by
  simp only [parseTimestampL, Option.bind_eq_bind, Option.bind_eq_some] at h
  obtain ⟨⟨y, r1⟩, e1, h⟩ := h
  obtain ⟨r2, e2, h⟩ := h
  obtain ⟨⟨mo, r3⟩, e3, h⟩ := h
  obtain ⟨r4, e4, h⟩ := h
  obtain ⟨⟨d, r5⟩, e5, h⟩ := h
  obtain ⟨r6, e6, h⟩ := h
  obtain ⟨⟨hh, r7⟩, e7, h⟩ := h
  obtain ⟨r8, e8, h⟩ := h
  obtain ⟨⟨mi, r9⟩, e9, h⟩ := h
  obtain ⟨r10, e10, h⟩ := h
  obtain ⟨⟨s, r11⟩, e11, h⟩ := h
  have hy := takeNumAux_bound 4 0 cs y r1 e1
  have hmo := takeNumAux_bound 2 0 r2 mo r3 e3
  have hd := takeNumAux_bound 2 0 r4 d r5 e5
  have hhh := takeNumAux_bound 2 0 r6 hh r7 e7
  have hmi := takeNumAux_bound 2 0 r8 mi r9 e9
  have hs := takeNumAux_bound 2 0 r10 s r11 e11
  by_cases he : r11.isEmpty
  · rw [if_pos he] at h
    cases h
    refine ⟨by simpa using hy, by simpa using hmo, by simpa using hd,
      by simpa using hhh, by simpa using hmi, by simpa using hs⟩
  · rw [if_neg he] at h
    exact absurd h (by simp)

/-! ## Data model and record store (`app.py` lines 10-52, 152-156)

A `MoodEntry` is one row of the CSV: `timestamp, mood, tags, notes`
(spec section 3).  `tags`/`notes` are `Option String` because pandas
`read_csv` turns a cell holding one of its default NA sentinels — in
particular the empty cell that an empty tags/notes submission produces —
into `NaN`; `none` models such a missing value. -/

/-- One mood record, as held in a loaded dataframe. -/
structure MoodEntry where
  timestamp : DateTime
  mood : Nat
  tags : Option String
  notes : Option String
deriving DecidableEq, Repr

/-- The backing CSV file (`mood_log.csv`), at cell level: a header row and
data rows.  CSV quoting is abstracted: each cell is the decoded string. -/
structure File where
  header : List String
  rows : List (List String)
deriving DecidableEq, Repr

/-- The default NA sentinel strings of `pandas.read_csv`: a cell holding
one of these reads back as `NaN`. -/
def naTokens : List String :=
  ["", "#N/A", "#N/A N/A", "#NA", "-1.#IND", "-1.#QNAN", "-NaN", "-nan",
   "1.#IND", "1.#QNAN", "<NA>", "N/A", "NA", "NULL", "NaN", "None", "n/a",
   "nan", "null"]

/-- Reading a free-text cell: NA sentinels become missing values. -/
def cellToOpt (s : String) : Option String := if s ∈ naTokens then none else some s

/-- Writing a free-text value: `to_csv` writes `NaN` as the empty cell. -/
def optToCell (o : Option String) : String := o.getD ""

/-- The header row `save_data` writes (`to_csv` with `index=False`). -/
def canonicalHeader : List String := ["timestamp", "mood", "tags", "notes"]

/-- Read one data row back as an entry: the timestamp cell in the
application's `DATE_FORMAT`, the mood cell an integer, tags and notes
free text with NA handling. -/
def parseRow (cells : List String) : Option MoodEntry :=
  match cells with
  | [c0, c1, c2, c3] => do
    let t ← parseTimestamp c0
    let m ← parseNatL c1.data
    some ⟨t, m, cellToOpt c2, cellToOpt c3⟩
  | _ => none

/-- Serialize one entry to a data row, as `to_csv` renders it. -/
def serializeRow (e : MoodEntry) : List String :=
  [formatTimestamp e.timestamp, String.mk (renderNat e.mood),
   optToCell e.tags, optToCell e.notes]

/-- Read all data rows; any bad row fails the whole parse (`read_csv`
raises, caught by `load_data`). -/
def parseRows : List (List String) → Option (List MoodEntry)
  | [] => some []
  | r :: rs => do
    let e ← parseRow r
    let l ← parseRows rs
    some (e :: l)

/-- Read a whole file: header must be the canonical one, then all rows. -/
def parseFile (f : File) : Option (List MoodEntry) :=
  if f.header = canonicalHeader then parseRows f.rows else none

/-- Serialize a collection to a file, with header row. -/
def serializeFile (l : List MoodEntry) : File := ⟨canonicalHeader, l.map serializeRow⟩

/-- `load_data` (`app.py` lines 19-28): if the file is absent, an empty
collection; if present, parse it, and on any failure return an empty
collection with the canonical columns (the `except` branch).  The
filesystem state is `none` when `mood_log.csv` does not exist. -/
def load_data (fs : Option File) : List MoodEntry :=
  match fs with
  | none => []
  | some f => (parseFile f).getD []

/-- `save_data` (`app.py` lines 31-33): overwrite the file with the full
collection; returns the new filesystem state. -/
def save_data (l : List MoodEntry) : Option File := some (serializeFile l)

/-- `add_entry` (`app.py` lines 36-43): load, build a row from the current
clock reading (`datetime.now().strftime(DATE_FORMAT)` — `now` is that
second-granularity reading), prepend, save, return the new collection.
Result: new filesystem state and returned dataframe. -/
def add_entry (now : DateTime) (mood : Nat) (tags notes : String) (fs : Option File) :
    Option File × List MoodEntry :=
  let df := load_data fs
  let df2 : List MoodEntry := ⟨now, mood, some tags, some notes⟩ :: df
  (save_data df2, df2)

/-- `delete_entry` (`app.py` lines 46-52): load; if `0 <= index < len(df)`
drop the row at that position (`df.drop(df.index[index]).reset_index`)
and save; otherwise leave the file untouched.  Returns the new filesystem
state and the returned dataframe. -/
def delete_entry (fs : Option File) (index : Int) : Option File × List MoodEntry :=
  let df := load_data fs
  if 0 ≤ index ∧ index < (df.length : Int) then
    let df2 := df.eraseIdx index.toNat
    (save_data df2, df2)
  else (fs, df)

/-- The Clear All Data handler (`app.py` lines 152-156): remove the
backing file if it exists. -/
def clear_data (fs : Option File) : Option File :=
  match fs with
  | some _ => none
  | none => none

/-! ## Storability: collections that survive a save/load round trip -/

/-- A free-text value that serialization will read back unchanged:
missing, or a string that is not an NA sentinel. -/
def CellStorable : Option String → Prop
  | none => True
  | some s => s ∉ naTokens

/-- An entry that a save/load round trip preserves.  Every entry a parse
produces is of this shape. -/
def EntryStorable (e : MoodEntry) : Prop :=
  DigitBounded e.timestamp ∧ CellStorable e.tags ∧ CellStorable e.notes

theorem cellToOpt_optToCell {o : Option String} (h : CellStorable o) :
    cellToOpt (optToCell o) = o := by
  match o with
  | none => simp [optToCell, cellToOpt, naTokens]
  | some s =>
    simp only [CellStorable] at h
    simp [optToCell, cellToOpt, h]

theorem cellStorable_cellToOpt (s : String) : CellStorable (cellToOpt s) := by
  by_cases h : s ∈ naTokens
  · simp [cellToOpt, h, CellStorable]
  · simp [cellToOpt, h, CellStorable]

theorem parseRow_serializeRow (e : MoodEntry) (h : EntryStorable e) :
    parseRow (serializeRow e) = some e := by
  obtain ⟨hb, ht, hn⟩ := h
  simp only [serializeRow, parseRow, parseTimestamp_formatTimestamp e.timestamp hb,
    Option.bind_eq_bind, Option.some_bind]
  have : parseNatL (String.mk (renderNat e.mood)).data = some e.mood := by
    simpa using parseNatL_renderNat e.mood
  rw [this]
  simp [cellToOpt_optToCell ht, cellToOpt_optToCell hn]

theorem parseRow_storable (cells : List String) (e : MoodEntry)
    (h : parseRow cells = some e) : EntryStorable e := by
  match cells with
  | [] => simp [parseRow] at h
  | [_] => simp [parseRow] at h
  | [_, _] => simp [parseRow] at h
  | [_, _, _] => simp [parseRow] at h
  | c0 :: c1 :: c2 :: c3 :: c4 :: rest => simp [parseRow] at h
  | [c0, c1, c2, c3] =>
    simp only [parseRow, Option.bind_eq_bind, Option.bind_eq_some] at h
    obtain ⟨t, et, h⟩ := h
    obtain ⟨m, em, h⟩ := h
    cases h
    exact ⟨parseTimestampL_bounded c0.data t et,
      cellStorable_cellToOpt c2, cellStorable_cellToOpt c3⟩

theorem parseRows_storable : ∀ rs l, parseRows rs = some l →
    ∀ e ∈ l, EntryStorable e := by
  intro rs
  induction rs with
  | nil =>
    intro l h
    simp only [parseRows, Option.some.injEq] at h
    subst h
    simp
  | cons r rs ih =>
    intro l h
    simp only [parseRows, Option.bind_eq_bind, Option.bind_eq_some] at h
    obtain ⟨e, he, h⟩ := h
    obtain ⟨l2, hl2, h⟩ := h
    cases h
    intro x hx
    rcases List.mem_cons.mp hx with h1 | h2
    · subst h1; exact parseRow_storable r x he
    · exact ih l2 hl2 x h2

theorem parseRows_serialize : ∀ l, (∀ e ∈ l, EntryStorable e) →
    parseRows (l.map serializeRow) = some l := by
  intro l
  induction l with
  | nil => intro _; simp [parseRows]
  | cons e l ih =>
    intro h
    have he : EntryStorable e := h e (by simp)
    have hl : ∀ x ∈ l, EntryStorable x := fun x hx => h x (by simp [hx])
    simp only [List.map_cons, parseRows, parseRow_serializeRow e he,
      Option.bind_eq_bind, Option.some_bind, ih hl]

theorem parseFile_serializeFile (l : List MoodEntry) (h : ∀ e ∈ l, EntryStorable e) :
    parseFile (serializeFile l) = some l := by
  simp [parseFile, serializeFile, parseRows_serialize l h]

/-- Everything `load_data` returns is storable. -/
theorem load_data_storable (fs : Option File) :
    ∀ e ∈ load_data fs, EntryStorable e := by
  match fs with
  | none => simp [load_data]
  | some f =>
    simp only [load_data]
    cases hp : parseFile f with
    | none => simp
    | some l =>
      simp only [Option.getD_some]
      simp only [parseFile] at hp
      by_cases hh : f.header = canonicalHeader
      · rw [if_pos hh] at hp
        exact parseRows_storable f.rows l hp
      · rw [if_neg hh] at hp
        exact absurd hp (by simp)

/-- Saving a storable collection and loading it back returns it. -/
theorem load_save_data (l : List MoodEntry) (h : ∀ e ∈ l, EntryStorable e) :
    load_data (save_data l) = l := by
  simp [load_data, save_data, parseFile_serializeFile l h]

/-! ## Query/filter layer (`app.py` lines 93-98)

`filtered = df.copy()` followed by a date-range mask and a tag mask.
The date mask compares `filtered['timestamp'].dt.date` against the two
chosen calendar dates inclusively; the tag mask is
`filtered['tags'].str.contains(tag_filter, case=False, na=False)`, which
with the pandas default `regex=True` is a case-insensitive regular
expression search, with missing tags counting as no match. -/

/-- A calendar date, the `.dt.date` projection of a timestamp. -/
structure Date where
  year : Nat
  month : Nat
  day : Nat
deriving DecidableEq, Repr

/-- The date portion of a date-time (`Timestamp.date()` in pandas). -/
def DateTime.date (t : DateTime) : Date := ⟨t.year, t.month, t.day⟩

/-- Chronological order on calendar dates (lexicographic on year, month,
day), as pandas `date` comparison behaves. -/
def DateLE (a b : Date) : Prop :=
  a.year < b.year ∨ (a.year = b.year ∧
    (a.month < b.month ∨ (a.month = b.month ∧ a.day ≤ b.day)))

instance (a b : Date) : Decidable (DateLE a b) := by
  unfold DateLE; infer_instance

theorem DateLE.refl (a : Date) : DateLE a a := by simp [DateLE]

theorem DateLE.antisymm {a b : Date} (h1 : DateLE a b) (h2 : DateLE b a) : a = b := by
  obtain ⟨ya, ma, da⟩ := a
  obtain ⟨yb, mb, db⟩ := b
  simp only [DateLE] at h1 h2
  simp only [Date.mk.injEq]
  omega

/-- The row mask of the date-range filter (`app.py` line 96):
`(dt.date >= start.date()) & (dt.date <= end.date())`. -/
def dateKeep (s e : Date) (x : MoodEntry) : Bool :=
  decide (DateLE s x.timestamp.date) && decide (DateLE x.timestamp.date e)

/-- The date-range filter applied to a collection (`app.py` line 96). -/
def filterByDateRange (s e : Date) (df : List MoodEntry) : List MoodEntry :=
  df.filter (dateKeep s e)

/-! ### The tag filter's regular-expression fragment

`Series.str.contains(pat, case=False, na=False)` with default
`regex=True` performs `re.search(pat, value, re.IGNORECASE)` on each
non-missing value.  We model the fragment of Python regex syntax made of
literal characters and the `.` wildcard; a pattern using any other
metacharacter is outside the model (`parsePatL` returns `none`). -/

/-- One token of the modelled regex fragment. -/
inductive RTok where
  | dot : RTok
  | lit : Char → RTok
deriving DecidableEq, Repr

/-- Characters that are special in Python regular expressions. -/
def regexSpecials : List Char :=
  ['.', '^', '$', '*', '+', '?', Char.ofNat 123, Char.ofNat 125,
   '[', ']', Char.ofNat 92, '|', '(', ')']

/-- Translate a pattern string into the modelled fragment: `.` becomes the
wildcard, any other special character leaves the model, everything else is
a literal. -/
def parsePatL : List Char → Option (List RTok)
  | [] => some []
  | c :: t =>
    if c = '.' then do
      let p ← parsePatL t
      some (RTok.dot :: p)
    else if c ∈ regexSpecials then none
    else do
      let p ← parsePatL t
      some (RTok.lit c :: p)

/-- Case-insensitive match of the pattern against a prefix of the text
(Python `re` at one start position, `re.IGNORECASE` via ASCII
`Char.toLower`). -/
def matchHereCI : List RTok → List Char → Bool
  | [], _ => true
  | _ :: _, [] => false
  | RTok.dot :: ps, _ :: ss => matchHereCI ps ss
  | RTok.lit c :: ps, x :: ss => (c.toLower == x.toLower) && matchHereCI ps ss

/-- Case-insensitive `re.search`: try every start position. -/
def reSearchCI (p : List RTok) : List Char → Bool
  | [] => matchHereCI p []
  | c :: t => matchHereCI p (c :: t) || reSearchCI p t

/-- The row mask of the tag filter (`app.py` line 98): missing tags never
match (`na=False`); otherwise regex search over the raw tags text. -/
def tagKeep (p : List RTok) (x : MoodEntry) : Bool :=
  match x.tags with
  | none => false
  | some t => reSearchCI p t.data

/-- The tag filter as the code applies it (`app.py` lines 97-98): skipped
entirely when the pattern string is empty (Python falsiness of `""`),
otherwise a regex-search mask; `none` when the pattern leaves the
modelled regex fragment. -/
def applyTagFilter (tf : String) (df : List MoodEntry) : Option (List MoodEntry) :=
  if tf = "" then some df
  else
    match parsePatL tf.data with
    | none => none
    | some p => some (df.filter (tagKeep p))

/-- The whole filter pipeline (`app.py` lines 93-98): the date-range mask
is applied when two dates were chosen, then the tag mask. -/
def filteredView (df : List MoodEntry) (dr : Option (Date × Date)) (tf : String) :
    Option (List MoodEntry) :=
  applyTagFilter tf
    (match dr with
     | some (s, e) => filterByDateRange s e df
     | none => df)

/-! ### Spec-side tag-filter semantics (for comparison)

The specification describes the tag filter as a case-insensitive
*substring* match against the raw tags field.  The following definitions
follow the spec's words; comparing them with `applyTagFilter` settles the
substring claim. -/

/-- Lowercase a character list (ASCII). -/
def lowerL (cs : List Char) : List Char := cs.map Char.toLower

/-- Does the second list start with the first? -/
def startsWithL : List Char → List Char → Bool
  | [], _ => true
  | _ :: _, [] => false
  | c :: ps, x :: ss => (c == x) && startsWithL ps ss

/-- Does `hay` contain `needle` as a contiguous sublist? -/
def containsAtAnyL (needle : List Char) : List Char → Bool
  | [] => startsWithL needle []
  | c :: t => startsWithL needle (c :: t) || containsAtAnyL needle t

/-- Spec-side predicate: the raw tags text contains the filter string as a
case-insensitive substring. -/
def substrCI (pat hay : String) : Bool := containsAtAnyL (lowerL pat.data) (lowerL hay.data)

/-- Spec-side row predicate: entries with missing tags are excluded,
others kept iff the tags text contains the filter as a case-insensitive
substring. -/
def specTagMatch (tf : String) (x : MoodEntry) : Bool :=
  match x.tags with
  | none => false
  | some t => substrCI tf t

/-- A pattern of literal characters parses to literal tokens. -/
theorem parsePatL_literal : ∀ cs : List Char, (∀ c ∈ cs, c ∉ regexSpecials) →
    parsePatL cs = some (cs.map RTok.lit) := by
  intro cs
  induction cs with
  | nil => intro _; simp [parsePatL]
  | cons c t ih =>
    intro h
    have hc : c ∉ regexSpecials := h c (by simp)
    have hdot : ¬ c = '.' := fun he => hc (by rw [he]; simp [regexSpecials])
    have ht : ∀ x ∈ t, x ∉ regexSpecials := fun x hx => h x (by simp [hx])
    simp [parsePatL, hdot, hc, ih ht]

/-- On literal patterns, anchored regex match is exactly the lowercased
list comparison. -/
theorem matchHereCI_literal : ∀ (cs s : List Char),
    matchHereCI (cs.map RTok.lit) s = startsWithL (lowerL cs) (lowerL s) := by
  intro cs
  induction cs with
  | nil => intro s; simp [matchHereCI, lowerL, startsWithL]
  | cons c t ih =>
    intro s
    match s with
    | [] => simp [matchHereCI, lowerL, startsWithL]
    | x :: ss =>
      simp only [List.map_cons, matchHereCI, lowerL, List.map, startsWithL]
      have ih2 := ih ss
      simp only [lowerL] at ih2
      rw [ih2]

/-- On literal patterns, regex search is exactly case-insensitive
substring containment. -/
theorem reSearchCI_literal : ∀ (cs s : List Char),
    reSearchCI (cs.map RTok.lit) s = containsAtAnyL (lowerL cs) (lowerL s) := by
  intro cs s
  induction s with
  | nil => simp [reSearchCI, containsAtAnyL, lowerL, matchHereCI_literal]
  | cons x t ih =>
    simp only [reSearchCI, containsAtAnyL, matchHereCI_literal, lowerL, List.map]
    simp only [lowerL] at ih
    rw [ih]

/-! ## Tag frequency (`app.py` lines 134-138)

`df['tags'].dropna().astype(str).str.split(',')`, flattened with
`t.strip().lower()` keeping only tokens whose strip is non-empty, then
`value_counts().head(15)`.  `value_counts` orders by descending count,
ties in first-appearance order. -/

/-- Characters Python `str.strip()` removes (ASCII whitespace). -/
def pyWhitespace (c : Char) : Bool :=
  c = ' ' || c = '\t' || c = '\n' || c = '\r' || c = Char.ofNat 11 || c = Char.ofNat 12

/-- Python `str.strip()` on a character list. -/
def trimL (cs : List Char) : List Char :=
  ((cs.dropWhile pyWhitespace).reverse.dropWhile pyWhitespace).reverse

/-- Python `str.split(',')` on a character list. -/
def splitCommaL : List Char → List (List Char)
  | [] => [[]]
  | c :: t =>
    if c = ',' then [] :: splitCommaL t
    else
      match splitCommaL t with
      | [] => [[c]]
      | h :: r => (c :: h) :: r

/-- The tokens one tags cell contributes: split on commas, strip, drop
empties, lowercase. -/
def tagTokensOf (s : String) : List String :=
  (splitCommaL s.data).filterMap (fun t =>
    let t2 := trimL t
    if t2.isEmpty then none else some (String.mk (lowerL t2)))

/-- `tags_flat` (`app.py` line 136): all tokens over the entire unfiltered
collection, in row order (missing tags dropped by `dropna()`). -/
def tagTokens (df : List MoodEntry) : List String :=
  ((df.filterMap MoodEntry.tags).map tagTokensOf).flatten

/-- Distinct values in first-appearance order (the identity order of a
pandas `value_counts` result among equal counts). -/
def dedupFirstAux (seen : List String) : List String → List String
  | [] => []
  | x :: t => if x ∈ seen then dedupFirstAux seen t else x :: dedupFirstAux (x :: seen) t

/-- Stable insertion keeping counts descending. -/
def insertByCount (x : String × Nat) : List (String × Nat) → List (String × Nat)
  | [] => [x]
  | y :: t => if y.2 < x.2 then x :: y :: t else y :: insertByCount x t

/-- Stable insertion sort by descending count. -/
def sortByCountDesc (l : List (String × Nat)) : List (String × Nat) :=
  l.foldl (fun acc x => insertByCount x acc) []

/-- `value_counts()` over the flattened tokens: each distinct token with
its number of occurrences, ordered by descending count, ties in
first-appearance order. -/
def tagCountsOf (df : List MoodEntry) : List (String × Nat) :=
  sortByCountDesc ((dedupFirstAux [] (tagTokens df)).map
    (fun t => (t, List.count t (tagTokens df))))

/-- `tag_counts` (`app.py` line 138): `value_counts().head(15)`. -/
def topTags (df : List MoodEntry) : List (String × Nat) :=
  (tagCountsOf df).take 15

theorem mem_insertByCount {z x : String × Nat} :
    ∀ {l : List (String × Nat)}, z ∈ insertByCount x l ↔ z = x ∨ z ∈ l := by
  intro l
  induction l with
  | nil => simp [insertByCount]
  | cons y t ih =>
    by_cases h : y.2 < x.2
    · simp [insertByCount, h]
    · simp only [insertByCount, if_neg h, List.mem_cons, ih]
      tauto

theorem insertByCount_pairwise (x : String × Nat) (l : List (String × Nat))
    (h : List.Pairwise (fun p q : String × Nat => q.2 ≤ p.2) l) :
    List.Pairwise (fun p q : String × Nat => q.2 ≤ p.2) (insertByCount x l) := by
  induction l with
  | nil => simp [insertByCount]
  | cons y t ih =>
    rcases List.pairwise_cons.mp h with ⟨hy, ht⟩
    by_cases hc : y.2 < x.2
    · simp only [insertByCount, if_pos hc]
      refine List.pairwise_cons.mpr ⟨?_, h⟩
      intro z hz
      rcases List.mem_cons.mp hz with h1 | h2
      · subst h1; omega
      · have := hy z h2; omega
    · simp only [insertByCount, if_neg hc]
      refine List.pairwise_cons.mpr ⟨?_, ih ht⟩
      intro z hz
      rcases mem_insertByCount.mp hz with h1 | h2
      · subst h1; omega
      · exact hy z h2

theorem sortByCountDesc_pairwise (l : List (String × Nat)) :
    List.Pairwise (fun p q : String × Nat => q.2 ≤ p.2) (sortByCountDesc l) := by
  suffices h : ∀ acc, List.Pairwise (fun p q : String × Nat => q.2 ≤ p.2) acc →
      List.Pairwise (fun p q : String × Nat => q.2 ≤ p.2)
        (l.foldl (fun a x => insertByCount x a) acc) by
    exact h [] (by simp)
  induction l with
  | nil => intro acc hacc; simpa using hacc
  | cons x t ih =>
    intro acc hacc
    simp only [List.foldl_cons]
    exact ih (insertByCount x acc) (insertByCount_pairwise x acc hacc)

theorem mem_sortByCountDesc {z : String × Nat} {l : List (String × Nat)} :
    z ∈ sortByCountDesc l ↔ z ∈ l := by
  suffices h : ∀ acc, z ∈ l.foldl (fun a x => insertByCount x a) acc ↔ z ∈ l ∨ z ∈ acc by
    have := h []
    simpa [sortByCountDesc] using this
  induction l with
  | nil => intro acc; simp
  | cons x t ih =>
    intro acc
    simp only [List.foldl_cons, ih (insertByCount x acc), mem_insertByCount, List.mem_cons]
    tauto

/-! ## A commutation lemma for positional deletion -/

theorem eraseIdx_comm {α : Type} : ∀ (l : List α) (i j : Nat), i < j →
    (l.eraseIdx i).eraseIdx (j - 1) = (l.eraseIdx j).eraseIdx i := by
  intro l
  induction l with
  | nil => intro i j h; simp [List.eraseIdx]
  | cons x t ih =>
    intro i j h
    match i, j with
    | 0, j + 1 => simp [List.eraseIdx]
    | i + 1, j + 1 =>
      have hij : i < j := by omega
      obtain ⟨m, rfl⟩ : ∃ m, j = m + 1 := ⟨j - 1, by omega⟩
      simp only [List.eraseIdx_cons_succ, Nat.add_sub_cancel]
      have hrec := ih i (m + 1) (by omega)
      simp only [Nat.add_sub_cancel] at hrec
      rw [hrec]

/-! ## Sample data for concrete instantiations -/

/-- A small concrete collection; its tags are the spec's tag-frequency
example (`"Work, Study"`, `"work"`, `"family"`). -/
def sampleDf : List MoodEntry :=
  [⟨⟨2026, 10, 1, 8, 0, 0⟩, 6, some "Work, Study", some "a"⟩,
   ⟨⟨2026, 10, 2, 9, 0, 0⟩, 7, some "work", some "b"⟩,
   ⟨⟨2026, 10, 3, 10, 0, 0⟩, 8, some "family", some "c"⟩]

/-- A filesystem state holding `sampleDf`. -/
def sampleFs : Option File := save_data sampleDf

/-- Collections produced by a parse are storable. -/
theorem parseFile_storable (f : File) (l : List MoodEntry)
    (h : parseFile f = some l) : ∀ e ∈ l, EntryStorable e := by
  simp only [parseFile] at h
  by_cases hh : f.header = canonicalHeader
  · rw [if_pos hh] at h
    exact parseRows_storable f.rows l h
  · rw [if_neg hh] at h
    exact absurd h (by simp)

/-! ## The claims -/

/-- C1 (amended): for a valid mood `m ∈ [1,10]` and tags and notes strings
that are not NA sentinels of the CSV reader (in particular non-empty),
`add(m,t,n)` followed by `load()` yields exactly the new entry — mood `m`,
tags `t`, notes `n`, timestamp the clock reading `now` taken during the
call — prepended to the previously loaded collection; in particular the
first element carries those field values.  (As frozen the claim fails for
`t = ""` or `n = ""`: the CSV round trip turns the empty cell into a
missing value; see the counterexample.) -/
theorem add_then_load_first_entry (fs : Option File) (now : DateTime) (m : Nat)
    (t n : String) (hb : DigitBounded now) (hm : 1 ≤ m ∧ m ≤ 10)
    (ht : t ∉ naTokens) (hn : n ∉ naTokens) :
    load_data (add_entry now m t n fs).1 =
      (⟨now, m, some t, some n⟩ : MoodEntry) :: load_data fs ∧
    (load_data (add_entry now m t n fs).1).head? =
      some ⟨now, m, some t, some n⟩ := by
  have hstore : ∀ e ∈ (⟨now, m, some t, some n⟩ : MoodEntry) :: load_data fs,
      EntryStorable e := by
    intro e he
    rcases List.mem_cons.mp he with h1 | h2
    · subst h1
      exact ⟨hb, ht, hn⟩
    · exact load_data_storable fs e h2
  have h1 : load_data (add_entry now m t n fs).1 =
      (⟨now, m, some t, some n⟩ : MoodEntry) :: load_data fs := by
    simp only [add_entry]
    exact load_save_data _ hstore
  exact ⟨h1, by rw [h1]; rfl⟩

/-- C1, counterexample to the claim as frozen: adding an entry with the
empty tags string and loading does not give back an entry whose tags
field equals `""` — the reloaded first entry has a missing tags value. -/
theorem add_then_load_empty_tags_cex :
    load_data (add_entry ⟨2026, 10, 12, 9, 30, 0⟩ 7 "" "hello" none).1 ≠
      (⟨⟨2026, 10, 12, 9, 30, 0⟩, 7, some "", some "hello"⟩ : MoodEntry) ::
        load_data none := by
  decide

/-- C1, witness: the amended theorem applied at a concrete input. -/
theorem add_then_load_first_entry_witness :
    load_data (add_entry ⟨2026, 10, 12, 9, 30, 0⟩ 7 "work" "ok" none).1 =
      (⟨⟨2026, 10, 12, 9, 30, 0⟩, 7, some "work", some "ok"⟩ : MoodEntry) ::
        load_data none ∧
    (load_data (add_entry ⟨2026, 10, 12, 9, 30, 0⟩ 7 "work" "ok" none).1).head? =
      some ⟨⟨2026, 10, 12, 9, 30, 0⟩, 7, some "work", some "ok"⟩ :=
  add_then_load_first_entry none ⟨2026, 10, 12, 9, 30, 0⟩ 7 "work" "ok"
    (by decide) (by decide) (by decide) (by decide)

/-- C2: for an in-range index `i`, `deleteAt(i)` removes exactly the entry
at position `i` of the last-load order — the result is the prefix before
`i` followed by the suffix after `i`, so all other entries keep their
relative order — and the length drops by one, both in the returned
collection and in the reloaded persisted one.  Applying `deleteAt` a
second time with the index shifted for the first removal (`j - 1` when
`j > i`, `j` unchanged when `j < i`) removes exactly the two originally
chosen entries: the final collection is the original with positions
`max i j` and `min i j` removed and its length is the original minus 2. -/
theorem delete_entry_in_range (fs : Option File) (i : Nat)
    (h : i < (load_data fs).length) :
    (delete_entry fs i).2 =
      (load_data fs).take i ++ (load_data fs).drop (i + 1) ∧
    (delete_entry fs i).2.length = (load_data fs).length - 1 ∧
    load_data (delete_entry fs i).1 = (load_data fs).eraseIdx i ∧
    (∀ j : Nat, j < (load_data fs).length → i ≠ j →
      load_data (delete_entry (delete_entry fs i).1
          (if i < j then (j : Int) - 1 else (j : Int))).1 =
        ((load_data fs).eraseIdx (max i j)).eraseIdx (min i j) ∧
      (load_data (delete_entry (delete_entry fs i).1
          (if i < j then (j : Int) - 1 else (j : Int))).1).length =
        (load_data fs).length - 2) := by
  have hcond : (0 : Int) ≤ (i : Int) ∧ (i : Int) < ((load_data fs).length : Int) :=
    ⟨Int.natCast_nonneg i, by exact_mod_cast h⟩
  have hdel : delete_entry fs i =
      (save_data ((load_data fs).eraseIdx i), (load_data fs).eraseIdx i) := by
    simp only [delete_entry, if_pos hcond, Int.toNat_natCast]
  have hstor1 : ∀ e ∈ (load_data fs).eraseIdx i, EntryStorable e := fun e he =>
    load_data_storable fs e ((List.eraseIdx_sublist (load_data fs) i).subset he)
  have hload2 : load_data (delete_entry fs i).1 = (load_data fs).eraseIdx i := by
    rw [hdel]
    exact load_save_data _ hstor1
  have hlen1 : ((load_data fs).eraseIdx i).length = (load_data fs).length - 1 := by
    rw [List.length_eraseIdx]
    simp [h]
  refine ⟨by rw [hdel]; exact List.eraseIdx_eq_take_drop_succ _ i,
    by rw [hdel]; exact hlen1, hload2, ?_⟩
  intro j hj hij
  set fs2 := (delete_entry fs (i : Int)).1 with hfs2
  by_cases hlt : i < j
  · rw [if_pos hlt]
    have hcond2 : (0 : Int) ≤ (j : Int) - 1 ∧
        (j : Int) - 1 < ((load_data fs2).length : Int) := by
      rw [hload2, hlen1]
      constructor <;> omega
    have htn : ((j : Int) - 1).toNat = j - 1 := by omega
    have hdel2 : delete_entry fs2 ((j : Int) - 1) =
        (save_data (((load_data fs).eraseIdx i).eraseIdx (j - 1)),
         ((load_data fs).eraseIdx i).eraseIdx (j - 1)) := by
      simp only [delete_entry, htn, hload2]
      rw [hload2] at hcond2
      rw [if_pos hcond2]
    have hstor2 : ∀ e ∈ ((load_data fs).eraseIdx i).eraseIdx (j - 1), EntryStorable e :=
      fun e he => hstor1 e ((List.eraseIdx_sublist _ (j - 1)).subset he)
    have hres : load_data (delete_entry fs2 ((j : Int) - 1)).1 =
        ((load_data fs).eraseIdx i).eraseIdx (j - 1) := by
      rw [hdel2]
      exact load_save_data _ hstor2
    rw [hres]
    have hcomm := eraseIdx_comm (load_data fs) i j hlt
    constructor
    · rw [hcomm, Nat.max_eq_right (le_of_lt hlt), Nat.min_eq_left (le_of_lt hlt)]
    · rw [List.length_eraseIdx, hlen1]
      have hj2 : j - 1 < (load_data fs).length - 1 := by omega
      simp only [if_pos hj2]
      omega
  · have hjlt : j < i := by omega
    rw [if_neg hlt]
    have hcond2 : (0 : Int) ≤ (j : Int) ∧
        (j : Int) < ((load_data fs2).length : Int) := by
      rw [hload2, hlen1]
      constructor <;> omega
    have hdel2 : delete_entry fs2 ((j : Nat) : Int) =
        (save_data (((load_data fs).eraseIdx i).eraseIdx j),
         ((load_data fs).eraseIdx i).eraseIdx j) := by
      simp only [delete_entry, Int.toNat_natCast, hload2]
      rw [hload2] at hcond2
      rw [if_pos hcond2]
    have hstor2 : ∀ e ∈ ((load_data fs).eraseIdx i).eraseIdx j, EntryStorable e :=
      fun e he => hstor1 e ((List.eraseIdx_sublist _ j).subset he)
    have hres : load_data (delete_entry fs2 ((j : Nat) : Int)).1 =
        ((load_data fs).eraseIdx i).eraseIdx j := by
      rw [hdel2]
      exact load_save_data _ hstor2
    rw [hres]
    constructor
    · rw [Nat.max_eq_left (le_of_lt hjlt), Nat.min_eq_right (le_of_lt hjlt)]
    · rw [List.length_eraseIdx, hlen1]
      have hj2 : j < (load_data fs).length - 1 := by omega
      simp only [if_pos hj2]
      omega

/-- C2, witness: deleting index 0 from a three-entry store, then index 2
shifted to 1, removes the first and the third of the original entries. -/
theorem delete_entry_in_range_witness :
    (delete_entry sampleFs 0).2 =
      (load_data sampleFs).take 0 ++ (load_data sampleFs).drop (0 + 1) ∧
    load_data (delete_entry (delete_entry sampleFs 0).1
        (if 0 < 2 then ((2 : Nat) : Int) - 1 else ((2 : Nat) : Int))).1 =
      ((load_data sampleFs).eraseIdx (max 0 2)).eraseIdx (min 0 2) :=
  ⟨(delete_entry_in_range sampleFs 0 (by decide)).1,
   ((delete_entry_in_range sampleFs 0 (by decide)).2.2.2 2 (by decide) (by decide)).1⟩

/-- C3: for an out-of-range index (negative or at least the length),
`deleteAt` is a complete no-op: the persisted file is the very same value
(byte-for-byte unchanged, since no save happens), the unmodified loaded
collection is returned, and no error is signalled (the function returns
normally). -/
theorem delete_entry_out_of_range (fs : Option File) (i : Int)
    (h : ¬ (0 ≤ i ∧ i < ((load_data fs).length : Int))) :
    delete_entry fs i = (fs, load_data fs) := by
  simp only [delete_entry, if_neg h]

/-- C3, witness: the theorem applied at a negative index on a concrete
store. -/
theorem delete_entry_out_of_range_witness :
    delete_entry sampleFs (-1) = (sampleFs, load_data sampleFs) :=
  delete_entry_out_of_range sampleFs (-1) (by decide)

/-- C4: for every persisted file that `load()` parses successfully,
`save(load())` followed by `load()` returns the same collection the first
`load()` produced. -/
theorem save_after_load_roundtrip (f : File) (l : List MoodEntry)
    (h : parseFile f = some l) :
    load_data (some f) = l ∧
    load_data (save_data (load_data (some f))) = load_data (some f) := by
  have h1 : load_data (some f) = l := by simp [load_data, h]
  refine ⟨h1, ?_⟩
  rw [h1]
  exact load_save_data l (parseFile_storable f l h)

/-- C4, witness: the round trip on a concrete parseable file. -/
theorem save_after_load_roundtrip_witness :
    load_data (some (serializeFile sampleDf)) = sampleDf ∧
    load_data (save_data (load_data (some (serializeFile sampleDf)))) =
      load_data (some (serializeFile sampleDf)) :=
  save_after_load_roundtrip (serializeFile sampleDf) sampleDf (by decide)

/-- C5: the date-range filter keeps exactly the entries whose timestamp's
date component lies in the inclusive range — membership in the filtered
collection is membership plus the two inclusive date comparisons, which
read only the date portion of the timestamp — and with a single-day range
`[d, d]` it is exactly the filter for date component equal to `d`,
regardless of time-of-day. -/
theorem date_range_filter_spec :
    (∀ (s e : Date) (df : List MoodEntry) (x : MoodEntry),
      x ∈ filterByDateRange s e df ↔
        x ∈ df ∧ DateLE s x.timestamp.date ∧ DateLE x.timestamp.date e) ∧
    (∀ (d : Date) (df : List MoodEntry),
      filterByDateRange d d df =
        df.filter (fun x => decide (x.timestamp.date = d))) := by
  constructor
  · intro s e df x
    simp [filterByDateRange, List.mem_filter, dateKeep, and_assoc]
  · intro d df
    apply List.filter_congr
    intro x _
    simp only [dateKeep]
    by_cases hx : x.timestamp.date = d
    · simp [hx, DateLE.refl]
    · simp only [decide_eq_false hx, Bool.and_eq_false_iff]
      by_cases h1 : DateLE d x.timestamp.date
      · right
        simp only [decide_eq_false_iff_not]
        exact fun h2 => hx (DateLE.antisymm h2 h1)
      · left
        simp [h1]

/-- C6 (amended): for a non-empty tag-filter string consisting only of
characters with no special regular-expression meaning, the tag filter
keeps exactly the entries whose raw tags field contains the string as a
case-insensitive substring, excludes entries with a missing tags field,
and composes with the date-range filter by logical AND (the two masks
fuse into one conjunction).  (As frozen — for every non-empty string —
the claim fails: the pandas default is `regex=True`, so a metacharacter
such as `.` is a wildcard, not a literal; see the counterexample.) -/
theorem tag_filter_literal_substring (tf : String) (df : List MoodEntry)
    (hne : tf ≠ "") (hlit : ∀ c ∈ tf.data, c ∉ regexSpecials) :
    applyTagFilter tf df = some (df.filter (specTagMatch tf)) ∧
    (∀ s e : Date,
      filteredView df (some (s, e)) tf =
        some ((filterByDateRange s e df).filter (specTagMatch tf)) ∧
      filteredView df (some (s, e)) tf =
        some (df.filter (fun x => specTagMatch tf x && dateKeep s e x))) := by
  have hpat : parsePatL tf.data = some (tf.data.map RTok.lit) := parsePatL_literal tf.data hlit
  have hfil : ∀ l : List MoodEntry,
      l.filter (tagKeep (tf.data.map RTok.lit)) = l.filter (specTagMatch tf) := by
    intro l
    apply List.filter_congr
    intro x _
    simp only [tagKeep, specTagMatch]
    cases x.tags with
    | none => rfl
    | some t => exact reSearchCI_literal tf.data t.data
  have happ : ∀ l : List MoodEntry,
      applyTagFilter tf l = some (l.filter (specTagMatch tf)) := by
    intro l
    simp only [applyTagFilter, if_neg hne, hpat]
    rw [hfil]
  refine ⟨happ df, ?_⟩
  intro s e
  have h1 : filteredView df (some (s, e)) tf =
      some ((filterByDateRange s e df).filter (specTagMatch tf)) := by
    simp only [filteredView]
    exact happ _
  refine ⟨h1, ?_⟩
  rw [h1, filterByDateRange, List.filter_filter]

/-- C6, counterexample to the claim as frozen: with tag filter `"."` the
code keeps an entry whose tags text `"work"` does not contain `"."` as a
substring — `.` is a regex wildcard under the pandas default. -/
theorem tag_filter_dot_cex :
    applyTagFilter "." [⟨⟨2026, 1, 1, 0, 0, 0⟩, 5, some "work", some "x"⟩] =
      some [⟨⟨2026, 1, 1, 0, 0, 0⟩, 5, some "work", some "x"⟩] ∧
    specTagMatch "." ⟨⟨2026, 1, 1, 0, 0, 0⟩, 5, some "work", some "x"⟩ = false := by
  decide

/-- C6, witness: the amended theorem applied to a literal pattern and the
sample collection, including the AND composition with a date range. -/
theorem tag_filter_literal_substring_witness :
    applyTagFilter "work" sampleDf = some (sampleDf.filter (specTagMatch "work")) ∧
    filteredView sampleDf (some (⟨2026, 10, 1⟩, ⟨2026, 10, 2⟩)) "work" =
      some (sampleDf.filter
        (fun x => specTagMatch "work" x && dateKeep ⟨2026, 10, 1⟩ ⟨2026, 10, 2⟩ x)) :=
  ⟨(tag_filter_literal_substring "work" sampleDf (by decide) (by decide)).1,
   ((tag_filter_literal_substring "work" sampleDf (by decide) (by decide)).2
     ⟨2026, 10, 1⟩ ⟨2026, 10, 2⟩).2⟩

/-- C7: tag frequency splits each tags field on commas, trims, lowercases
and drops empty tokens over the entire unfiltered collection
(`tagTokens`); each reported pair carries the exact occurrence count of
its token; the report is ordered by descending count and cut to the top
15.  On the spec's example — tags `"Work, Study"`, `"work"`, `"family"` —
the counts are `work: 2, study: 1, family: 1`. -/
theorem tag_frequency_spec :
    tagCountsOf sampleDf = [("work", 2), ("study", 1), ("family", 1)] ∧
    (∀ df, (topTags df).length ≤ 15) ∧
    (∀ df, List.Pairwise (fun p q : String × Nat => q.2 ≤ p.2) (topTags df)) ∧
    (∀ df tok cnt, (tok, cnt) ∈ tagCountsOf df →
      cnt = List.count tok (tagTokens df)) := by
  refine ⟨by decide, fun df => List.length_take_le 15 (tagCountsOf df), ?_, ?_⟩
  · intro df
    exact List.Pairwise.sublist (List.take_sublist 15 (tagCountsOf df))
      (sortByCountDesc_pairwise _)
  · intro df tok cnt hmem
    have := mem_sortByCountDesc.mp hmem
    rcases List.mem_map.mp this with ⟨t, _, heq⟩
    cases heq
    rfl

/-- C7, witness: the count-correctness part applied to the sample
collection's most frequent token. -/
theorem tag_frequency_spec_witness :
    (2 : Nat) = List.count "work" (tagTokens sampleDf) :=
  tag_frequency_spec.2.2.2 sampleDf "work" 2 (by decide)

/-- C8: `load()` returns the empty collection when the backing file is
absent, and likewise (without signalling any error — `load_data` is total)
when the file fails to parse; the result's columns are the canonical four,
carried by the `MoodEntry` record type itself. -/
theorem load_failure_empty :
    load_data none = [] ∧
    (∀ f : File, parseFile f = none → load_data (some f) = []) := by
  refine ⟨rfl, fun f h => ?_⟩
  simp [load_data, h]

/-- C8, witness: a file with a non-canonical header fails to parse and
loads as the empty collection. -/
theorem load_failure_empty_witness :
    parseFile ⟨["bad"], []⟩ = none ∧ load_data (some ⟨["bad"], []⟩) = [] :=
  ⟨by decide, load_failure_empty.2 ⟨["bad"], []⟩ (by decide)⟩

/-- C9: clearing removes the backing file entirely whatever its prior
state (the filesystem state becomes `none`), and a subsequent `load()`
returns the empty collection. -/
theorem clear_then_load_empty (fs : Option File) :
    load_data (clear_data fs) = [] ∧ clear_data fs = none := by
  cases fs <;> simp [clear_data, load_data]

/-- C10: with the empty tag-filter string, tag filtering is skipped
entirely — every entry passes, including those with missing tags — and
the displayed collection is exactly the date-range-filtered one (or the
whole collection when no complete range was chosen). -/
theorem empty_tag_filter_skip :
    (∀ df : List MoodEntry, applyTagFilter "" df = some df) ∧
    (∀ (df : List MoodEntry) (dr : Option (Date × Date)),
      filteredView df dr "" =
        some (match dr with
              | some (s, e) => filterByDateRange s e df
              | none => df)) := by
  have h1 : ∀ df : List MoodEntry, applyTagFilter "" df = some df := by
    intro df
    simp [applyTagFilter]
  refine ⟨h1, ?_⟩
  intro df dr
  match dr with
  | some (s, e) => simp only [filteredView, h1]
  | none => simp only [filteredView, h1]
